import Mathlib

/-!
Verification of the onsm analytical core (NUMT/NIMT classification pipeline).

This file shallowly embeds the analytical core of the repository:
  * the PAF alignment-record reader and locus pairer (src/io/paf.rs),
  * the BAM coverage / span estimator (src/io/bam.rs),
  * the scoring / classification engine (src/scoring.rs),
  * the genome-occupancy summarizer (src/summary.rs),
and proves (or refutes) the specification claims about them.

Machine floats (f32/f64) are modelled as exact rationals `ℚ` wherever the
code only performs field arithmetic and comparisons, and as reals `ℝ` for
the scoring engine (which uses `tanh`/`log`).  The float constant `0.80`
is idealized as `4/5` and `1e-3` as `1/1000`.  External subprocess region
queries (samtools) are modelled as oracle functions passed as parameters.
-/

set_option maxHeartbeats 1000000

namespace Onsm

/-! ## PAF records (src/io/paf.rs) -/

/-- Raw PAF line fields as parsed by the `paf` crate. -/
structure RawPafRecord where
  query_name : String
  query_len : Nat
  query_start : Nat
  query_end : Nat
  strand : Char
  target_name : String
  target_len : Nat
  target_start : Nat
  target_end : Nat
  residue_matches : Nat
  alignment_block_len : Nat
  mapping_quality : Nat
deriving Repr, DecidableEq

/-- Crate-internal alignment record (struct `PafRecord` in src/io/paf.rs). -/
structure PafRecord where
  qname : String
  qstart : Nat
  qend : Nat
  tname : String
  tstart : Nat
  tend : Nat
  matches_ : Nat  -- source field `matches` (Lean keyword)
  alnlen : Nat
  mapq : Nat
  identity : ℚ
  strand : Char
deriving Repr, DecidableEq

/-- `impl From<paf::PafRecord> for PafRecord`: identity is
`matches / alnlen` when `alnlen > 0` and `0.0` otherwise. -/
def fromRaw (r : RawPafRecord) : PafRecord :=
  { qname := r.query_name
    qstart := r.query_start
    qend := r.query_end
    tname := r.target_name
    tstart := r.target_start
    tend := r.target_end
    matches_ := r.residue_matches
    alnlen := r.alignment_block_len
    mapq := r.mapping_quality
    identity :=
      if 0 < r.alignment_block_len then
        (r.residue_matches : ℚ) / (r.alignment_block_len : ℚ)
      else 0
    strand := r.strand }

/-- Errors surfaced by `read_paf`. -/
inductive PafError where
  | notFound
  | parseError
deriving Repr, DecidableEq

/-- The record-processing loop of `read_paf`: each input line either parses
to a raw record (`some r`) or is malformed (`none`); a malformed record
aborts with a parse error, otherwise records are converted and filtered by
`identity >= min_id && alnlen >= min_len`. -/
def readLoop (min_id : ℚ) (min_len : Nat) :
    List (Option RawPafRecord) → Except PafError (List PafRecord)
  | [] => .ok []
  | none :: _ => .error .parseError
  | some r :: rest =>
    match readLoop min_id min_len rest with
    | .error e => .error e
    | .ok out =>
      let ours := fromRaw r
      .ok (if min_id ≤ ours.identity ∧ min_len ≤ ours.alnlen then ours :: out else out)

/-- `read_paf`: fails when the path does not exist, then reads, converts and
filters each line (src/io/paf.rs lines 52-67).  The file system is modelled
by the flag `pathExists` and the line sequence `lines`. -/
def read_paf (pathExists : Bool) (lines : List (Option RawPafRecord))
    (min_id : ℚ) (min_len : Nat) : Except PafError (List PafRecord) :=
  if pathExists then readLoop min_id min_len lines else .error .notFound

/-- Paired/merged locus (struct `PairedLocus`). -/
structure PairedLocus where
  pair_id : String
  nuc_contig : String
  nuc_start : Nat
  nuc_end : Nat
  mito_contig : String
  mito_start : Nat
  mito_end : Nat
  aln_len : Nat
  aln_ident : ℚ
deriving Repr, DecidableEq

/-- Zero-padding of `format!("P{:06}", n)`: pad the decimal digits of `n`
with leading zeros to a minimum width of six. -/
def zeroPad6 (n : Nat) : String :=
  let s := toString n
  String.mk (List.replicate (6 - s.length) '0') ++ s

/-- Rust `Iterator::max_by` over identities: folds keeping the accumulator
only when it compares strictly greater (so the last maximum wins). -/
def maxByIdentity : List PafRecord → Option PafRecord
  | [] => none
  | x :: rest => some (rest.foldl (fun acc r => if r.identity < acc.identity then acc else r) x)

/-- Predicate for a reciprocal hit of `rec`: contig names swapped. -/
def reciprocalOf (rec : PafRecord) (r : PafRecord) : Bool :=
  r.qname == rec.tname && r.tname == rec.qname

/-- Body of the `pair_and_merge` loop for driver record `rec` at 0-based
input position `i`. -/
def mkLocus (n2m : List PafRecord) (i : Nat) (rec : PafRecord) : PairedLocus :=
  let best := maxByIdentity (n2m.filter (reciprocalOf rec))
  let ident :=
    match best with
    | some b => max b.identity rec.identity
    | none => rec.identity
  { pair_id := "P" ++ zeroPad6 (i + 1)
    nuc_contig := rec.tname
    nuc_start := min rec.tstart rec.tend
    nuc_end := max rec.tstart rec.tend
    mito_contig := rec.qname
    mito_start := min rec.qstart rec.qend
    mito_end := max rec.qstart rec.qend
    aln_len := rec.alnlen
    aln_ident := ident }

/-- The enumerated loop of `pair_and_merge`. -/
def pairLoop (n2m : List PafRecord) : Nat → List PafRecord → List PairedLocus
  | _, [] => []
  | i, rec :: rest => mkLocus n2m i rec :: pairLoop n2m (i + 1) rest

/-- `pair_and_merge` (src/io/paf.rs lines 86-117): one locus per driver
record, reciprocal lookup by swapped contig names, best identity merge. -/
def pair_and_merge (m2n n2m : List PafRecord) (_merge_gap : Nat) : List PairedLocus :=
  pairLoop n2m 0 m2n

/-! ## Genome occupancy summarizer (src/summary.rs) -/

/-- The sort key order of `v.sort_by_key(|x| (x.0, x.1))`: lexicographic
order on the interval pair. -/
def pairLe (a b : Nat × Nat) : Prop :=
  a.1 < b.1 ∨ (a.1 = b.1 ∧ a.2 ≤ b.2)

instance : DecidableRel pairLe := fun a b => by
  unfold pairLe; exact inferInstance

instance : IsTotal (Nat × Nat) pairLe :=
  ⟨fun a b => by unfold pairLe; omega⟩

instance : IsTrans (Nat × Nat) pairLe :=
  ⟨fun a b c hab hbc => by unfold pairLe at *; omega⟩

instance : IsAntisymm (Nat × Nat) pairLe :=
  ⟨fun a b hab hba => by
    obtain ⟨a1, a2⟩ := a; obtain ⟨b1, b2⟩ := b
    unfold pairLe at hab hba
    simp only [Prod.mk.injEq]
    omega⟩

/-- The sort step of `union_len`. -/
def sortIntervals (v : List (Nat × Nat)) : List (Nat × Nat) :=
  List.insertionSort pairLe v

/-- The merging loop of `union_len`: `cur` is the interval being grown;
returns the accumulated total length. -/
def unionLoop (cur : Nat × Nat) : List (Nat × Nat) → Nat
  | [] => cur.2 - cur.1
  | (s, e) :: rest =>
    if s ≤ cur.2 then unionLoop (cur.1, max cur.2 e) rest
    else (cur.2 - cur.1) + unionLoop (s, e) rest

/-- `union_len` (src/summary.rs lines 241-260): sort intervals by
`(start, end)`, merge overlapping-or-touching ones, return total length. -/
def union_len (v : List (Nat × Nat)) : Nat :=
  match sortIntervals v with
  | [] => 0
  | c :: rest => unionLoop c rest

/-- The same merging loop, but returning the merged interval list instead
of its total length (used to state idempotence of the union). -/
def mergeLoop (cur : Nat × Nat) : List (Nat × Nat) → List (Nat × Nat)
  | [] => [cur]
  | (s, e) :: rest =>
    if s ≤ cur.2 then mergeLoop (cur.1, max cur.2 e) rest
    else cur :: mergeLoop (s, e) rest

/-- Sorted-and-merged interval list underlying `union_len`. -/
def mergeIntervals (v : List (Nat × Nat)) : List (Nat × Nat) :=
  match sortIntervals v with
  | [] => []
  | c :: rest => mergeLoop c rest

/-- `pct` (src/summary.rs lines 222-228): percentage with a zero-denominator
guard returning `0.0`. -/
def pct (numer denom : Nat) : ℚ :=
  if denom = 0 then 0 else 100 * (numer : ℚ) / (denom : ℚ)

/-- `add_interval`: push a half-open interval into a per-contig bucket,
dropping empty/inverted intervals (`start >= end`). -/
def add_interval (m : List (String × List (Nat × Nat))) (contig : String)
    (s e : Nat) : List (String × List (Nat × Nat)) :=
  if e ≤ s then m else addToEntry m contig (s, e)
where
  addToEntry : List (String × List (Nat × Nat)) → String → (Nat × Nat) →
      List (String × List (Nat × Nat))
    | [], c, iv => [(c, [iv])]
    | (k, v) :: rest, c, iv =>
      if k = c then (k, v ++ [iv]) :: rest else (k, v) :: addToEntry rest c iv

/-- `union_len_all`: union length summed across contigs. -/
def union_len_all (m : List (String × List (Nat × Nat))) : Nat :=
  (m.map fun kv => union_len kv.2).sum

/-- Output struct `Summary` (counts as `Nat`, percentages as `ℚ`). -/
structure Summary where
  n_pairs : Nat
  n_numt : Nat
  n_nimt : Nat
  nuclear_bp_total : Nat
  nuclear_bp_numt : Nat
  nuclear_pct_numt : ℚ
  mito_bp_total : Nat
  mito_bp_nimt : Nat
  mito_pct_nimt : ℚ
  mito_bp_covered_by_numt_homologs : Nat
  mito_pct_covered_by_numt_homologs : ℚ
  nuc_bp_covered_by_nimt_homologs : Nat
  nuc_pct_covered_by_nimt_homologs : ℚ
deriving Repr, DecidableEq

/-- State accumulated by the classification loop of `compute_percentages`. -/
structure SummaryBuckets where
  n_numt : Nat
  n_nimt : Nat
  nuc_intervals_numt : List (String × List (Nat × Nat))
  mito_intervals_nimt : List (String × List (Nat × Nat))
  mito_intervals_from_numt : List (String × List (Nat × Nat))
  nuc_intervals_from_nimt : List (String × List (Nat × Nat))

/-- The body of the per-pair loop of `compute_percentages`: dispatch on the
call string (default `"Ambiguous"` when the pair id is missing from the call
map). -/
def summaryStep (calls : List (String × String)) (acc : SummaryBuckets)
    (p : PairedLocus) : SummaryBuckets :=
  let call := ((calls.lookup p.pair_id).getD "Ambiguous")
  if call = "Likely_NUMT" then
    { acc with
      n_numt := acc.n_numt + 1
      nuc_intervals_numt :=
        add_interval acc.nuc_intervals_numt p.nuc_contig p.nuc_start p.nuc_end
      mito_intervals_from_numt :=
        add_interval acc.mito_intervals_from_numt p.mito_contig p.mito_start p.mito_end }
  else if call = "Likely_NIMT" then
    { acc with
      n_nimt := acc.n_nimt + 1
      mito_intervals_nimt :=
        add_interval acc.mito_intervals_nimt p.mito_contig p.mito_start p.mito_end
      nuc_intervals_from_nimt :=
        add_interval acc.nuc_intervals_from_nimt p.nuc_contig p.nuc_start p.nuc_end }
  else acc

/-- The per-pair loop of `compute_percentages`, iterating in input order. -/
def summaryLoop (calls : List (String × String)) (pairs : List PairedLocus) :
    SummaryBuckets :=
  pairs.foldl (summaryStep calls) ⟨0, 0, [], [], [], []⟩

/-- `compute_percentages` (src/summary.rs lines 49-156).  The FASTA contig
length sums are passed in as `mito_bp_total` / `nuclear_bp_total` (the FASTA
reading itself is external glue). -/
def compute_percentages (mito_bp_total nuclear_bp_total : Nat)
    (pairs : List PairedLocus) (calls : List (String × String)) : Summary :=
  let b := summaryLoop calls pairs
  let nuclear_bp_numt := union_len_all b.nuc_intervals_numt
  let mito_bp_nimt := union_len_all b.mito_intervals_nimt
  let mito_bp_covered_by_numt_homologs := union_len_all b.mito_intervals_from_numt
  let nuc_bp_covered_by_nimt_homologs := union_len_all b.nuc_intervals_from_nimt
  { n_pairs := pairs.length
    n_numt := b.n_numt
    n_nimt := b.n_nimt
    nuclear_bp_total := nuclear_bp_total
    nuclear_bp_numt := nuclear_bp_numt
    nuclear_pct_numt := pct nuclear_bp_numt nuclear_bp_total
    mito_bp_total := mito_bp_total
    mito_bp_nimt := mito_bp_nimt
    mito_pct_nimt := pct mito_bp_nimt mito_bp_total
    mito_bp_covered_by_numt_homologs := mito_bp_covered_by_numt_homologs
    mito_pct_covered_by_numt_homologs :=
      pct mito_bp_covered_by_numt_homologs mito_bp_total
    nuc_bp_covered_by_nimt_homologs := nuc_bp_covered_by_nimt_homologs
    nuc_pct_covered_by_nimt_homologs :=
      pct nuc_bp_covered_by_nimt_homologs nuclear_bp_total }

/-! ## BAM coverage & spanning metrics (src/io/bam.rs)

Region slicing by `samtools view` is modelled by an oracle
`fetch : String → Nat → Nat → List BamRec` taking the contig name and the
1-based inclusive region bounds the code puts in the region string. -/

/-- CIGAR operation kinds (noodles `Kind`). -/
inductive CigarKind where
  | Match | SequenceMatch | SequenceMismatch | Deletion | Skip
  | Insertion | SoftClip | HardClip | Pad
deriving Repr, DecidableEq

/-- A CIGAR operation: kind and run length. -/
structure CigarOp where
  kind : CigarKind
  len : Nat
deriving Repr, DecidableEq

/-- A BAM alignment record as consumed by the estimator.  `astart` is the
1-based alignment start (`None` when absent/unparseable), `mapq` the raw
mapping-quality byte (255 = unavailable, reported as `None` by noodles). -/
structure BamRec where
  unmapped : Bool
  astart : Option Nat
  mapq : Nat
  cigar : List CigarOp
deriving Repr, DecidableEq

/-- A half-open, 0-based window (struct `Window`; `end` is a Lean keyword,
so the field is `end_`). -/
structure Window where
  start : Int
  end_ : Int
deriving Repr, DecidableEq

/-- Reference-consuming CIGAR kinds: M, =, X, D, N. -/
def consumesRef : CigarKind → Bool
  | .Match | .SequenceMatch | .SequenceMismatch | .Deletion | .Skip => true
  | _ => false

/-- Depth-contributing CIGAR kinds: M, =, X. -/
def contributesDepth : CigarKind → Bool
  | .Match | .SequenceMatch | .SequenceMismatch => true
  | _ => false

/-- `i32::try_from(op.len()).unwrap_or(0)`. -/
def opLenI32 (n : Nat) : Int :=
  if n ≤ 2147483647 then (n : Int) else 0

/-- Reference-consumed length of a CIGAR (the `ref_len` accumulation). -/
def refLen (ops : List CigarOp) : Int :=
  (ops.map fun op => if consumesRef op.kind then opLenI32 op.len else 0).sum

/-- `(usize::from(p) as i32 - 1).max(0)`: 0-based record start. -/
def recStart0 (p : Nat) : Int := max ((p : Int) - 1) 0

/-- The per-record CIGAR walk of `avg_depth_for_region_path_with_samtools`:
accumulate, over reference-consuming ops, the length of the
depth-contributing segment clipped to `[ovs, ove)`. -/
def coveredInOps (ovs ove : Int) : Int → List CigarOp → Int
  | _, [] => 0
  | pos, op :: rest =>
    let oplen := opLenI32 op.len
    if consumesRef op.kind then
      (if contributesDepth op.kind then
        max 0 (min (pos + oplen) ove - max pos ovs)
      else 0) + coveredInOps ovs ove (pos + oplen) rest
    else coveredInOps ovs ove pos rest

/-- Contribution of one record to `covered` (the record loop body of
`avg_depth_for_region_path_with_samtools`, lines 81-144). -/
def recCovered (w : Window) (r : BamRec) : Int :=
  if r.unmapped then 0
  else
    match r.astart with
    | none => 0
    | some p =>
      let s0 := recStart0 p
      let rl := refLen r.cigar
      if rl ≤ 0 then 0
      else
        let e0 := s0 + rl
        let ovs := max s0 w.start
        let ove := min e0 w.end_
        if ove ≤ ovs then 0 else coveredInOps ovs ove s0 r.cigar

/-- Depth statistic over a window: `covered / win_len` with
`win_len = max (end - start) 1`. -/
def avg_depth (records : List BamRec) (w : Window) : ℚ :=
  let winLen : Int := max (w.end_ - w.start) 1
  let covered : Int := (records.map (recCovered w)).sum
  (covered : ℚ) / (winLen : ℚ)

/-- `avg_depth_for_region_path_with_samtools` (src/io/bam.rs lines 39-147):
slice the BAM at region `rname:(max(start,0)+1)-(max(end,1))` and compute
the mean per-base depth over the window. -/
def avg_depth_for_region_path (fetch : String → Nat → Nat → List BamRec)
    (rname : String) (w : Window) : ℚ :=
  let s1 := (max w.start 0 + 1).toNat
  let e1 := (max w.end_ 1).toNat
  avg_depth (fetch rname s1 e1) w

/-- Mapping-quality filter survival in the span loop: records are skipped
iff the quality is available (raw byte ≠ 255) and below 20. -/
def mapqPass (q : Nat) : Bool := q == 255 || !(q < 20)

/-- The record loop of `span_fraction_for_region_path_with_samtools`
(lines 205-249): returns `(total, spans)` counts over the capped window. -/
def spanCounts (sw : Window) (winLen : ℚ) : List BamRec → Nat × Nat
  | [] => (0, 0)
  | r :: rest =>
    let acc := spanCounts sw winLen rest
    if r.unmapped then acc
    else if ¬ mapqPass r.mapq then acc
    else
      match r.astart with
      | none => acc
      | some p =>
        let s0 := recStart0 p
        let rl := refLen r.cigar
        if rl ≤ 0 then acc
        else
          let e0 := s0 + rl
          let ovs := max s0 sw.start
          let ove := min e0 sw.end_
          let overlap : Int := max (ove - ovs) 0
          (acc.1 + 1, if (4 : ℚ) / 5 ≤ (overlap : ℚ) / winLen then acc.2 + 1 else acc.2)

/-- The capped span window: centred on the midpoint of the full window,
half-width `max (span_cap / 2) 1` (i32 division truncates toward zero). -/
def capWindow (w : Window) (span_cap : Int) : Window :=
  let mid := Int.tdiv (w.start + w.end_) 2
  let half := max (Int.tdiv span_cap 2) 1
  ⟨max (mid - half) 0, mid + half⟩

/-- `span_fraction_for_region_path_with_samtools` (src/io/bam.rs lines
149-252): fetch the capped window, filter records, and return
`spans / total` (0 when no record qualifies). -/
def span_fraction_for_region_path (fetch : String → Nat → Nat → List BamRec)
    (rname : String) (w : Window) (span_cap : Int) : ℚ :=
  let sw := capWindow w span_cap
  let s1 := (max sw.start 0 + 1).toNat
  let e1 := (max sw.end_ 1).toNat
  let records := fetch rname s1 e1
  let winLen : ℚ := ((max (sw.end_ - sw.start) 1 : Int) : ℚ)
  let counts := spanCounts sw winLen records
  if counts.1 = 0 then 0 else (counts.2 : ℚ) / (counts.1 : ℚ)

/-- `SPAN_CAP_BP`. -/
def SPAN_CAP_BP : Int := 20000

/-- Overall coverage medians + per-pair local depths (struct
`CoverageSummary`; the HashMap is modelled as an association list in
insertion order). -/
structure CoverageSummary where
  nuclear_median : ℚ
  mito_median : ℚ
  per_pair : List (String × (ℚ × ℚ))
deriving Repr, DecidableEq

/-- Per-pair spanning support fractions (struct `SpanSummary`). -/
structure SpanSummary where
  per_pair : List (String × (ℚ × ℚ))
deriving Repr, DecidableEq

/-- The inner `fn median` of `compute_coverage_and_spans_with_tools` (lines
334-345): 0 for empty input, else sort ascending and take the middle
element (odd length) or the mean of the two middle elements (even). -/
def median (v : List ℚ) : ℚ :=
  if v = [] then 0
  else
    let s := List.insertionSort (fun a b : ℚ => a ≤ b) v
    let m := s.length
    if m % 2 = 1 then s.getD (m / 2) 0
    else (s.getD (m / 2 - 1) 0 + s.getD (m / 2) 0) / 2

/-- Depth window for the nuclear side of a pair: `[nuc_start - flank,
nuc_end + flank)`. -/
def nucWindow (p : PairedLocus) (flank : Nat) : Window :=
  ⟨(p.nuc_start : Int) - (flank : Int), (p.nuc_end : Int) + (flank : Int)⟩

/-- Depth window for the mito side of a pair. -/
def mitoWindow (p : PairedLocus) (flank : Nat) : Window :=
  ⟨(p.mito_start : Int) - (flank : Int), (p.mito_end : Int) + (flank : Int)⟩

/-- Per-pair loop state of `compute_coverage_and_spans_with_tools`. -/
structure CovState where
  per_pair : List (String × (ℚ × ℚ))
  per_span : List (String × (ℚ × ℚ))
  nuc_locals : List ℚ
  mito_locals : List ℚ

/-- Body of the per-pair loop (lines 279-332). -/
def covStep (fetch_r2n fetch_r2m : String → Nat → Nat → List BamRec)
    (flank : Nat) (acc : CovState) (p : PairedLocus) : CovState :=
  let nuc_w := nucWindow p flank
  let mito_w := mitoWindow p flank
  let d_nuc := avg_depth_for_region_path fetch_r2n p.nuc_contig nuc_w
  let d_mito := avg_depth_for_region_path fetch_r2m p.mito_contig mito_w
  let s_nuc := span_fraction_for_region_path fetch_r2n p.nuc_contig nuc_w SPAN_CAP_BP
  let s_mito := span_fraction_for_region_path fetch_r2m p.mito_contig mito_w SPAN_CAP_BP
  { per_pair := acc.per_pair ++ [(p.pair_id, (d_nuc, d_mito))]
    per_span := acc.per_span ++ [(p.pair_id, (s_nuc, s_mito))]
    nuc_locals := acc.nuc_locals ++ [d_nuc]
    mito_locals := acc.mito_locals ++ [d_mito] }

/-- `compute_coverage_and_spans_with_tools` (src/io/bam.rs lines 254-363). -/
def compute_coverage_and_spans (fetch_r2n fetch_r2m : String → Nat → Nat → List BamRec)
    (pairs : List PairedLocus) (flank : Nat) : CoverageSummary × SpanSummary :=
  let st := pairs.foldl (covStep fetch_r2n fetch_r2m flank) ⟨[], [], [], []⟩
  (⟨median st.nuc_locals, median st.mito_locals, st.per_pair⟩, ⟨st.per_span⟩)

/-! ## Scoring / classification engine (src/scoring.rs)

The engine uses `tanh`, `ln` and division on f32; it is modelled over `ℝ`
(hence these definitions are noncomputable, unlike the rest of the file). -/

/-- Scoring weights (struct `Weights`). -/
structure Weights where
  w_a : ℝ
  w_l : ℝ
  w_d : ℝ
  w_s : ℝ

/-- Classification parameters (struct `ClassifyParams`). -/
structure ClassifyParams where
  call_threshold : ℝ
  highconf_threshold : ℝ

/-- Per-locus call (enum `Call`). -/
inductive Call where
  | NUMT | NIMT | Ambiguous
deriving Repr, DecidableEq

/-- `clamp01`: `x.clamp(0.0, 1.0)`. -/
noncomputable def clamp01 (x : ℝ) : ℝ := min (max x 0) 1

/-- `scale_len`: soft-saturating length map `clamp01 (l / (l + 5000))`. -/
noncomputable def scale_len (len_bp : Nat) : ℝ :=
  clamp01 ((len_bp : ℝ) / ((len_bp : ℝ) + 5000))

/-- Coverage summary as consumed by the scoring engine (medians and local
depths as reals). -/
structure CoverageSummaryR where
  nuclear_median : ℝ
  mito_median : ℝ
  per_pair : List (String × (ℝ × ℝ))

/-- Span summary as consumed by the scoring engine. -/
structure SpanSummaryR where
  per_pair : List (String × (ℝ × ℝ))

/-- Per-locus output row of the engine: `(score_numt, score_nimt, call,
confidence)`. -/
structure ClassRow where
  score_numt : ℝ
  score_nimt : ℝ
  call : Call
  confidence : ℝ

/-- The per-locus computation of `classify_pairs` (src/scoring.rs lines
65-175), written exactly as the sequence of bindings in the source. -/
noncomputable def classify_one (cov : CoverageSummaryR) (spans : SpanSummaryR)
    (w : Weights) (params : ClassifyParams) (p : PairedLocus) : ClassRow :=
  let dn_med := cov.nuclear_median
  let dm_med := cov.mito_median
  let dloc := ((cov.per_pair.lookup p.pair_id).getD (0, 0))
  let d_nuc_loc := dloc.1
  let d_mito_loc := dloc.2
  let rnuc := if dn_med > 0 then d_nuc_loc / dn_med else 0
  let rmito := if dm_med > 0 then d_mito_loc / dm_med else 0
  let d_numt := clamp01 (1 - |rnuc - 1|)
  let d_nimt := clamp01 (1 - |rmito - 1|)
  let sloc := ((spans.per_pair.lookup p.pair_id).getD (0, 0))
  let s_nuc := sloc.1
  let s_mito := sloc.2
  let eps : ℝ := 1e-3
  let log2_ratio := Real.log ((rnuc + eps) / (rmito + eps)) / Real.log 2
  let k_depth : ℝ := 1.25
  let depth_contrast := Real.tanh (k_depth * log2_ratio)
  let span_contrast := s_nuc - s_mito
  let a := clamp01 ((p.aln_ident : ℝ))
  let l := scale_len p.aln_len
  let base := w.w_a * a + w.w_l * l
  let pro_numt := w.w_d * d_numt + w.w_s * s_nuc
  let pro_nimt := w.w_d * d_nimt + w.w_s * s_mito
  let pen_numt := w.w_d * d_nimt + w.w_s * s_mito
  let pen_nimt := w.w_d * d_numt + w.w_s * s_nuc
  let boost_numt := w.w_d * depth_contrast + w.w_s * span_contrast
  let boost_nimt := -w.w_d * depth_contrast - w.w_s * span_contrast
  let score_numt := base + pro_numt - pen_numt + boost_numt
  let score_nimt := base + pro_nimt - pen_nimt + boost_nimt
  let delta := |score_numt - score_nimt|
  let call :=
    if score_numt - score_nimt ≥ params.call_threshold then Call.NUMT
    else if score_nimt - score_numt ≥ params.call_threshold then Call.NIMT
    else Call.Ambiguous
  ⟨score_numt, score_nimt, call, delta⟩

/-! ## NaN-aware model of the pairer (claim C10)

Here the f32 `identity` field is modelled as `Option ℚ` with `none`
standing for NaN, so that the `partial_cmp(..).unwrap()` in
`pair_and_merge` can be modelled: comparing against NaN yields `none`
and the unwrap panics.  A panic is modelled as the whole function
returning `none`. -/

/-- Alignment record with a possibly-NaN identity. -/
structure PafRecordF where
  qname : String
  qstart : Nat
  qend : Nat
  tname : String
  tstart : Nat
  tend : Nat
  matches_ : Nat
  alnlen : Nat
  mapq : Nat
  identity : Option ℚ
  strand : Char
deriving Repr, DecidableEq

/-- The identity computation of `From<paf::PafRecord>`: when `alnlen > 0`
it is the f32 quotient of two finite non-negative numbers with a non-zero
divisor — never NaN; otherwise it is the literal `0.0`. -/
def identF (matches_ alnlen : Nat) : Option ℚ :=
  if 0 < alnlen then some ((matches_ : ℚ) / (alnlen : ℚ)) else some 0

/-- Reader conversion producing the NaN-aware record. -/
def fromRawF (r : RawPafRecord) : PafRecordF :=
  { qname := r.query_name
    qstart := r.query_start
    qend := r.query_end
    tname := r.target_name
    tstart := r.target_start
    tend := r.target_end
    matches_ := r.residue_matches
    alnlen := r.alignment_block_len
    mapq := r.mapping_quality
    identity := identF r.residue_matches r.alignment_block_len
    strand := r.strand }

/-- `f32::partial_cmp`: `none` (unwrap panic) iff either side is NaN. -/
def fcmp : Option ℚ → Option ℚ → Option Ordering
  | some a, some b => some (compare a b)
  | _, _ => none

/-- `f32::max`: if one argument is NaN, the other argument is returned. -/
def fmax : Option ℚ → Option ℚ → Option ℚ
  | some a, some b => some (max a b)
  | some a, none => some a
  | none, b => b

/-- `Iterator::max_by` with the panicking comparator; outer `none`
signals a panic. -/
def maxByF : Option PafRecordF → List PafRecordF → Option (Option PafRecordF)
  | acc, [] => some acc
  | none, r :: rest => maxByF (some r) rest
  | some m, r :: rest =>
    match fcmp m.identity r.identity with
    | none => none
    | some .gt => maxByF (some m) rest
    | some _ => maxByF (some r) rest

/-- Reciprocal-hit predicate on NaN-aware records. -/
def reciprocalOfF (rec : PafRecordF) (r : PafRecordF) : Bool :=
  r.qname == rec.tname && r.tname == rec.qname

/-- Paired locus with possibly-NaN identity. -/
structure PairedLocusF where
  pair_id : String
  nuc_contig : String
  nuc_start : Nat
  nuc_end : Nat
  mito_contig : String
  mito_start : Nat
  mito_end : Nat
  aln_len : Nat
  aln_ident : Option ℚ
deriving Repr, DecidableEq

/-- `pair_and_merge` on NaN-aware records; `none` = the `unwrap` inside
`max_by` panicked. -/
def pairLoopF (n2m : List PafRecordF) : Nat → List PafRecordF → Option (List PairedLocusF)
  | _, [] => some []
  | i, rec :: rest =>
    match maxByF none (n2m.filter (reciprocalOfF rec)) with
    | none => none
    | some best =>
      let ident :=
        match best with
        | some b => fmax b.identity rec.identity
        | none => rec.identity
      match pairLoopF n2m (i + 1) rest with
      | none => none
      | some loci =>
        some ({ pair_id := "P" ++ zeroPad6 (i + 1)
                nuc_contig := rec.tname
                nuc_start := min rec.tstart rec.tend
                nuc_end := max rec.tstart rec.tend
                mito_contig := rec.qname
                mito_start := min rec.qstart rec.qend
                mito_end := max rec.qstart rec.qend
                aln_len := rec.alnlen
                aln_ident := ident } :: loci)

/-- Panic-tracking `pair_and_merge`. -/
def pair_and_merge_checked (m2n n2m : List PafRecordF) (_merge_gap : Nat) :
    Option (List PairedLocusF) :=
  pairLoopF n2m 0 m2n

/-! ## Per-base depth reformulation (claim C1)

The spec describes the local depth statistic in terms of per-base depth
values inside the window; the following definitions give that per-base
view of the estimator's accounting. -/

/-- The `n` consecutive integers starting at `lo`. -/
def posList (lo : Int) (n : Nat) : List Int :=
  (List.range n).map fun k : Nat => lo + (k : Int)

/-- All positions of a window. -/
def windowPositions (w : Window) : List Int :=
  posList w.start (w.end_ - w.start).toNat

/-- Whether the CIGAR walk starting at reference position `pos` covers
position `x` with a depth-contributing op. -/
def coversAt (x : Int) : Int → List CigarOp → Bool
  | _, [] => false
  | pos, op :: rest =>
    let oplen := opLenI32 op.len
    if consumesRef op.kind then
      (contributesDepth op.kind && decide (pos ≤ x) && decide (x < pos + oplen))
        || coversAt x (pos + oplen) rest
    else coversAt x pos rest

/-- Whether a record contributes depth at position `x` (same guards as the
record loop of the depth estimator). -/
def recCoversAt (r : BamRec) (x : Int) : Bool :=
  if r.unmapped then false
  else
    match r.astart with
    | none => false
    | some p =>
      decide (0 < refLen r.cigar) && coversAt x (recStart0 p) r.cigar

/-- Per-base depth at position `x`: the number of records covering `x`. -/
def depthAt (records : List BamRec) (x : Int) : Nat :=
  records.countP (recCoversAt · x)

/-- The depth statistic the specification describes (claim C1): the median
of the per-base depth values within the window `[mid - flank, mid + flank)`
centred on the midpoint of a locus interval (positions with no reads count
as depth 0; an empty window yields 0).  Modelled from the spec's words, to
be compared with the source's `avg_depth_for_region_path`. -/
def spec_median_depth (records : List BamRec) (istart iend : Int)
    (flank : Int) : ℚ :=
  let mid := Int.tdiv (istart + iend) 2
  let w : Window := ⟨mid - flank, mid + flank⟩
  median ((windowPositions w).map fun x => (depthAt records x : ℚ))

/-! ## Spec-side scoring formulas (claim C5)

Modelled from the claim's words, to be compared with `classify_one`. -/

/-- The claim's depth ratio: local depth over global median, 0 when the
global median is 0. -/
noncomputable def spec_ratio (dloc dmed : ℝ) : ℝ :=
  if dmed = 0 then 0 else dloc / dmed

/-- The claim's NUMT score formula. -/
noncomputable def spec_score_numt (w : Weights) (identity : ℝ) (len : Nat)
    (rn rm sn sm : ℝ) : ℝ :=
  w.w_a * clamp01 identity + w.w_l * ((len : ℝ) / ((len : ℝ) + 5000))
    + (w.w_d * clamp01 (1 - |rn - 1|) + w.w_s * sn)
    - (w.w_d * clamp01 (1 - |rm - 1|) + w.w_s * sm)
    + (w.w_d * Real.tanh (1.25 * Real.logb 2 ((rn + 1e-3) / (rm + 1e-3)))
        + w.w_s * (sn - sm))

/-- The claim's NIMT score formula (contrast terms negated). -/
noncomputable def spec_score_nimt (w : Weights) (identity : ℝ) (len : Nat)
    (rn rm sn sm : ℝ) : ℝ :=
  w.w_a * clamp01 identity + w.w_l * ((len : ℝ) / ((len : ℝ) + 5000))
    + (w.w_d * clamp01 (1 - |rm - 1|) + w.w_s * sm)
    - (w.w_d * clamp01 (1 - |rn - 1|) + w.w_s * sn)
    - (w.w_d * Real.tanh (1.25 * Real.logb 2 ((rn + 1e-3) / (rm + 1e-3)))
        + w.w_s * (sn - sm))

/-! ## Claim C3: identity bounds of the reader -/

/-- A raw record with more matches than its alignment block length. -/
def rawOvermatched : RawPafRecord :=
  ⟨"q1", 100, 0, 50, '+', "t1", 100, 0, 50, 10, 5, 60⟩

/-- Claim C3 counterexample: a (malformed) record with `matches = 10` and
`alnlen = 5` gets identity `2`, which is not in `[0, 1]`; the reader
performs no clamping, so the claim as stated is false. -/
theorem C3_counterexample :
    (fromRaw rawOvermatched).identity = 2 ∧
    ¬ (fromRaw rawOvermatched).identity ≤ 1 := by
  norm_num [fromRaw, rawOvermatched]

/-- Claim C3 (amended): the identity computed by the reader is always
non-negative, equals 0 when the alignment block length is 0, and lies in
`[0, 1]` whenever `matches ≤ alnlen` (in particular for all well-formed
records); without that bound it can exceed 1. -/
theorem C3_identity_bounds (r : RawPafRecord) :
    0 ≤ (fromRaw r).identity ∧
    (r.residue_matches ≤ r.alignment_block_len → (fromRaw r).identity ≤ 1) ∧
    (r.alignment_block_len = 0 → (fromRaw r).identity = 0) := by
  refine ⟨?_, ?_, ?_⟩
  · simp only [fromRaw]
    split
    · positivity
    · exact le_refl 0
  · intro hle
    simp only [fromRaw]
    split
    · rename_i h
      rw [div_le_one (by exact_mod_cast h)]
      exact_mod_cast hle
    · exact zero_le_one
  · intro h0
    simp [fromRaw, h0]

/-- Claim C3 witness: the amended bounds at a concrete well-formed record. -/
theorem C3_witness :
    0 ≤ (fromRaw ⟨"q1", 100, 0, 50, '+', "t1", 100, 0, 50, 40, 50, 60⟩).identity ∧
    (fromRaw ⟨"q1", 100, 0, 50, '+', "t1", 100, 0, 50, 40, 50, 60⟩).identity ≤ 1 :=
  ⟨(C3_identity_bounds _).1, (C3_identity_bounds _).2.1 (by decide)⟩

/-! ## Claim C7: reader contract -/

/-- The record filter of `read_paf`. -/
def keepRecord (min_id : ℚ) (min_len : Nat) (r : PafRecord) : Bool :=
  decide (min_id ≤ r.identity) && decide (min_len ≤ r.alnlen)

lemma readLoop_error_of_none (min_id : ℚ) (min_len : Nat) :
    ∀ lines : List (Option RawPafRecord), none ∈ lines →
      readLoop min_id min_len lines = .error .parseError := by
  intro lines hmem
  induction lines with
  | nil => simp at hmem
  | cons l rest ih =>
    cases l with
    | none => rfl
    | some r =>
      have : none ∈ rest := by simpa using hmem
      simp only [readLoop, ih this]

lemma readLoop_all_some (min_id : ℚ) (min_len : Nat) :
    ∀ lines : List (Option RawPafRecord), (∀ l ∈ lines, l.isSome) →
      readLoop min_id min_len lines =
        .ok ((lines.reduceOption.map fromRaw).filter (keepRecord min_id min_len)) := by
  intro lines hall
  induction lines with
  | nil => rfl
  | cons l rest ih =>
    cases l with
    | none => simpa using hall none (by simp)
    | some r =>
      have hrest : ∀ l ∈ rest, l.isSome := fun l hl => hall l (by simp [hl])
      simp only [readLoop, ih hrest, List.reduceOption_cons_of_some, List.map_cons,
        List.filter_cons, keepRecord]
      by_cases hid : min_id ≤ (fromRaw r).identity <;>
        by_cases hlen : min_len ≤ (fromRaw r).alnlen <;>
          simp [hid, hlen]

lemma readLoop_ok_mem (min_id : ℚ) (min_len : Nat) :
    ∀ lines out, readLoop min_id min_len lines = .ok out →
      ∀ r ∈ out, min_id ≤ r.identity ∧ min_len ≤ r.alnlen := by
  intro lines
  induction lines with
  | nil =>
    intro out h r hr
    simp only [readLoop, Except.ok.injEq] at h
    subst h; simp at hr
  | cons l rest ih =>
    intro out h r hr
    cases l with
    | none => simp [readLoop] at h
    | some raw =>
      simp only [readLoop] at h
      cases hrest : readLoop min_id min_len rest with
      | error e => rw [hrest] at h; exact absurd h (by simp)
      | ok out' =>
        rw [hrest] at h
        simp only [Except.ok.injEq] at h
        subst h
        split at hr
        · rename_i hcond
          rcases List.mem_cons.mp hr with h1 | h2
          · subst h1; exact hcond
          · exact ih out' hrest r h2
        · exact ih out' hrest r hr

/-- Claim C7: `read_paf` fails with `NotFound` when the path does not
exist; fails (does not skip) when any line is malformed; and on an input
whose lines all parse it succeeds with exactly the records passing
`identity ≥ min_id ∧ alnlen ≥ min_len` — consequently no record failing
the filter ever appears in a successful output. -/
theorem C7_read_paf (lines : List (Option RawPafRecord)) (min_id : ℚ) (min_len : Nat) :
    read_paf false lines min_id min_len = .error .notFound ∧
    (none ∈ lines → read_paf true lines min_id min_len = .error .parseError) ∧
    ((∀ l ∈ lines, l.isSome) →
      read_paf true lines min_id min_len =
        .ok ((lines.reduceOption.map fromRaw).filter (keepRecord min_id min_len))) ∧
    (∀ out, read_paf true lines min_id min_len = .ok out →
      ∀ r ∈ out, min_id ≤ r.identity ∧ min_len ≤ r.alnlen) := by
  refine ⟨rfl, ?_, ?_, ?_⟩
  · intro h
    simpa [read_paf] using readLoop_error_of_none min_id min_len lines h
  · intro h
    simpa [read_paf] using readLoop_all_some min_id min_len lines h
  · intro out h
    exact readLoop_ok_mem min_id min_len lines out (by simpa [read_paf] using h)

/-- Claim C7 witness: a concrete run with one passing record, one filtered
record and no malformed line. -/
theorem C7_witness :
    read_paf true [some ⟨"q1", 100, 0, 50, '+', "t1", 100, 0, 50, 50, 50, 60⟩,
                   some ⟨"q2", 100, 0, 50, '+', "t2", 100, 0, 50, 10, 50, 60⟩]
        (9 / 10 : ℚ) 10 =
      .ok [fromRaw ⟨"q1", 100, 0, 50, '+', "t1", 100, 0, 50, 50, 50, 60⟩] := by
  have h := (C7_read_paf
      [some ⟨"q1", 100, 0, 50, '+', "t1", 100, 0, 50, 50, 50, 60⟩,
       some ⟨"q2", 100, 0, 50, '+', "t2", 100, 0, 50, 10, 50, 60⟩]
      (9 / 10 : ℚ) 10).2.2.1 (by simp)
  rw [h]
  norm_num [keepRecord, fromRaw, List.filter]

/-! ## Claim C2: occupancy percentages -/

/-- A NUMT-called locus covering 200 bp of a 100 bp "assembly". -/
def exNumtPair : PairedLocus :=
  ⟨"P000001", "chr1", 0, 200, "m1", 0, 50, 200, 1⟩

/-- Claim C2 counterexample: with total nuclear length 100 (≥ 1) and a
NUMT union of 200 bp, the reported percentage is 200, outside `[0, 100]`;
moreover `pct` is not the claimed `100·n/max(d,1)` at `d = 0`:
`pct 5 0 = 0 ≠ 500`. -/
theorem C2_counterexample :
    (compute_percentages 1000 100 [exNumtPair] [("P000001", "Likely_NUMT")]).nuclear_pct_numt = 200 ∧
    ¬ (compute_percentages 1000 100 [exNumtPair] [("P000001", "Likely_NUMT")]).nuclear_pct_numt ≤ 100 ∧
    pct 5 0 = 0 ∧ ¬ pct 5 0 = 100 * 5 / max 0 1 := by
  have hunion : union_len_all (summaryLoop [("P000001", "Likely_NUMT")]
      [exNumtPair]).nuc_intervals_numt = 200 := by decide
  have h : (compute_percentages 1000 100 [exNumtPair]
      [("P000001", "Likely_NUMT")]).nuclear_pct_numt = pct 200 100 := by
    simp only [compute_percentages, hunion]
  rw [h]
  norm_num [pct]

lemma pct_zero_denom (n : Nat) : pct n 0 = 0 := by simp [pct]

lemma pct_formula (n d : Nat) (hd : 0 < d) : pct n d = 100 * (n : ℚ) / (d : ℚ) := by
  simp [pct, Nat.pos_iff_ne_zero.mp hd]

lemma pct_zero_numer (d : Nat) : pct 0 d = 0 := by simp [pct]

lemma pct_nonneg (n d : Nat) : 0 ≤ pct n d := by
  unfold pct; split
  · exact le_refl 0
  · positivity

lemma pct_le_100 (n d : Nat) (h : n ≤ d) : pct n d ≤ 100 := by
  unfold pct; split
  · norm_num
  · rename_i hd
    have hd' : (0 : ℚ) < (d : ℚ) := by
      exact_mod_cast Nat.pos_of_ne_zero hd
    rw [mul_div_assoc]
    calc 100 * ((n : ℚ) / (d : ℚ)) ≤ 100 * 1 := by
          have : (n : ℚ) / (d : ℚ) ≤ 1 := by
            rw [div_le_one hd']; exact_mod_cast h
          nlinarith
      _ = 100 := by norm_num

/-- Claim C2 (amended): each of the four occupancy percentages equals
`100 × union_bp / total_bp` when the total is ≥ 1 and equals 0 when the
total is 0 (the code guards the zero denominator by returning 0, it does
not floor the denominator at 1); each is 0 when the corresponding union
length is 0, is always non-negative, and lies in `[0, 100]` whenever the
union length does not exceed the total length (total ≥ 1 alone does not
bound it). -/
theorem C2_percentages (mt nt : Nat) (pairs : List PairedLocus)
    (calls : List (String × String)) :
    ((compute_percentages mt nt pairs calls).nuclear_pct_numt =
        pct (compute_percentages mt nt pairs calls).nuclear_bp_numt nt ∧
      (compute_percentages mt nt pairs calls).mito_pct_nimt =
        pct (compute_percentages mt nt pairs calls).mito_bp_nimt mt ∧
      (compute_percentages mt nt pairs calls).mito_pct_covered_by_numt_homologs =
        pct (compute_percentages mt nt pairs calls).mito_bp_covered_by_numt_homologs mt ∧
      (compute_percentages mt nt pairs calls).nuc_pct_covered_by_nimt_homologs =
        pct (compute_percentages mt nt pairs calls).nuc_bp_covered_by_nimt_homologs nt) ∧
    (∀ n d : Nat,
      (0 < d → pct n d = 100 * (n : ℚ) / (d : ℚ)) ∧
      pct n 0 = 0 ∧ pct 0 d = 0 ∧ 0 ≤ pct n d ∧ (n ≤ d → pct n d ≤ 100)) := by
  refine ⟨⟨rfl, rfl, rfl, rfl⟩, fun n d => ⟨pct_formula n d, pct_zero_denom n,
    pct_zero_numer d, pct_nonneg n d, pct_le_100 n d⟩⟩

/-- Claim C2 witness: the amended facts at concrete values. -/
theorem C2_witness :
    pct 5 10 = 100 * (5 : ℚ) / (10 : ℚ) ∧ pct 5 10 ≤ 100 := by
  have h := (C2_percentages 0 0 [] []).2 5 10
  exact ⟨h.1 (by decide), h.2.2.2.2 (by decide)⟩

/-! ## Claim C10: the pairer never panics on reader output -/

lemma maxByF_isSome :
    ∀ (l : List PafRecordF) (acc : Option PafRecordF),
      (∀ r ∈ l, r.identity.isSome) →
      (∀ m, acc = some m → m.identity.isSome) →
      (maxByF acc l).isSome := by
  intro l
  induction l with
  | nil => intro acc _ _; cases acc <;> simp [maxByF]
  | cons r rest ih =>
    intro acc hall hacc
    have hr : r.identity.isSome := hall r (by simp)
    have hrest : ∀ x ∈ rest, x.identity.isSome := fun x hx => hall x (by simp [hx])
    cases acc with
    | none =>
      simp only [maxByF]
      exact ih (some r) hrest (fun m hm => by cases hm; exact hr)
    | some m =>
      have hm : m.identity.isSome := hacc m rfl
      simp only [maxByF]
      obtain ⟨a, ha⟩ := Option.isSome_iff_exists.mp hm
      obtain ⟨b, hb⟩ := Option.isSome_iff_exists.mp hr
      rw [ha, hb]
      simp only [fcmp]
      cases compare a b with
      | lt => exact ih (some r) hrest (fun x hx => by cases hx; exact hr)
      | eq => exact ih (some r) hrest (fun x hx => by cases hx; exact hr)
      | gt => exact ih (some m) hrest (fun x hx => by cases hx; exact hm)

lemma pairLoopF_isSome (n2m : List PafRecordF)
    (hall : ∀ r ∈ n2m, r.identity.isSome) :
    ∀ (m2n : List PafRecordF) (i : Nat), (pairLoopF n2m i m2n).isSome := by
  intro m2n
  induction m2n with
  | nil => intro i; simp [pairLoopF]
  | cons rec rest ih =>
    intro i
    have hfilter : ∀ r ∈ n2m.filter (reciprocalOfF rec), r.identity.isSome :=
      fun r hr => hall r (List.mem_of_mem_filter hr)
    have hmax := maxByF_isSome (n2m.filter (reciprocalOfF rec)) none hfilter
      (fun m hm => by cases hm)
    obtain ⟨best, hbest⟩ := Option.isSome_iff_exists.mp hmax
    obtain ⟨loci, hloci⟩ := Option.isSome_iff_exists.mp (ih (i + 1))
    simp only [pairLoopF, hbest, hloci]
    rfl

/-- Claim C10: the reader always produces a non-NaN identity (exactly
`0.0` when `alnlen = 0`), so the `partial_cmp(..).unwrap()` inside
`pair_and_merge`'s reciprocal selection never panics: the pairer is total
on reader output. -/
theorem C10_pairer_total :
    (∀ raw : RawPafRecord, (fromRawF raw).identity.isSome ∧
      (raw.alignment_block_len = 0 → (fromRawF raw).identity = some 0)) ∧
    (∀ (m2n n2m : List PafRecordF) (g : Nat),
      (∀ r ∈ n2m, r.identity.isSome) →
      (pair_and_merge_checked m2n n2m g).isSome) := by
  constructor
  · intro raw
    constructor
    · simp only [fromRawF, identF]
      split <;> simp
    · intro h0
      simp [fromRawF, identF, h0]
  · intro m2n n2m g hall
    exact pairLoopF_isSome n2m hall m2n 0

/-- Claim C10 witness: a concrete panic-free run through the pairer on
reader-produced records. -/
theorem C10_witness :
    (pair_and_merge_checked
      [fromRawF ⟨"m1", 100, 0, 50, '+', "c1", 100, 0, 50, 40, 50, 60⟩]
      [fromRawF ⟨"c1", 100, 0, 50, '+', "m1", 100, 0, 50, 40, 0, 60⟩] 50).isSome :=
  C10_pairer_total.2 _ _ 50 (by
    intro r hr
    simp only [List.mem_singleton] at hr
    subst hr
    exact (C10_pairer_total.1 _).1)

/-! ## Claim C6: the pairer emits one locus per driver, in order -/

lemma foldlMax_mem_and_bound (x : PafRecord) :
    ∀ rest : List PafRecord,
      (rest.foldl (fun acc r => if r.identity < acc.identity then acc else r) x) ∈ x :: rest ∧
      x.identity ≤ (rest.foldl (fun acc r => if r.identity < acc.identity then acc else r) x).identity ∧
      (∀ c ∈ rest, c.identity ≤
        (rest.foldl (fun acc r => if r.identity < acc.identity then acc else r) x).identity) := by
  intro rest
  induction rest generalizing x with
  | nil => simp
  | cons r rs ih =>
    simp only [List.foldl_cons]
    set y := if r.identity < x.identity then x else r with hy
    obtain ⟨hmem, hxle, hall⟩ := ih y
    have hxy : x.identity ≤ y.identity := by
      rw [hy]; split
      · exact le_refl _
      · rename_i h; exact le_of_not_lt h
    have hry : r.identity ≤ y.identity := by
      rw [hy]; split
      · rename_i h; exact le_of_lt h
      · exact le_refl _
    refine ⟨?_, le_trans hxy hxle, ?_⟩
    · rcases List.mem_cons.mp hmem with h | h
      · rw [h, hy]
        split
        · exact List.mem_cons_self _ _
        · exact List.mem_cons_of_mem _ (List.mem_cons_self _ _)
      · exact List.mem_cons_of_mem _ (List.mem_cons_of_mem _ h)
    · intro c hc
      rcases List.mem_cons.mp hc with h | h
      · subst h; exact le_trans hry hxle
      · exact hall c h

lemma maxByIdentity_spec (l : List PafRecord) (hne : l ≠ []) :
    ∃ b, maxByIdentity l = some b ∧ b ∈ l ∧ ∀ c ∈ l, c.identity ≤ b.identity := by
  cases l with
  | nil => exact absurd rfl hne
  | cons x rest =>
    obtain ⟨hmem, hxle, hall⟩ := foldlMax_mem_and_bound x rest
    refine ⟨_, rfl, hmem, ?_⟩
    intro c hc
    rcases List.mem_cons.mp hc with h | h
    · subst h; exact hxle
    · exact hall c h

lemma pairLoop_length (n2m : List PafRecord) :
    ∀ (l : List PafRecord) (i : Nat), (pairLoop n2m i l).length = l.length := by
  intro l
  induction l with
  | nil => intro i; rfl
  | cons rec rest ih => intro i; simp [pairLoop, ih]

lemma pairLoop_get? (n2m : List PafRecord) :
    ∀ (l : List PafRecord) (i j : Nat),
      (pairLoop n2m i l)[j]? = (l[j]?).map (fun rec => mkLocus n2m (i + j) rec) := by
  intro l
  induction l with
  | nil => intro i j; simp [pairLoop]
  | cons rec rest ih =>
    intro i j
    cases j with
    | zero => simp [pairLoop]
    | succ j' =>
      have harith : (i + 1) + j' = i + (j' + 1) := by omega
      simp only [pairLoop, List.getElem?_cons_succ, ih (i + 1) j', harith]

/-- Claim C6: `pair_and_merge` emits exactly one locus per driver record in
input order; the `i`-th output (0-based) carries `pair_id = "P" ++` the
six-digit zero-padded `i + 1`, the driver's contig names, the interval
endpoints normalized to `(min, max)`, and identity
`max(driver, best reciprocal)` where the best reciprocal is a
maximum-identity record with swapped contig names (driver identity alone
when none matches); and the `pair_id` sequence does not depend on the
reciprocal input. -/
theorem C6_pairer (m2n n2m : List PafRecord) (g : Nat) :
    (pair_and_merge m2n n2m g).length = m2n.length ∧
    (∀ i rec, m2n[i]? = some rec →
      ∃ out, (pair_and_merge m2n n2m g)[i]? = some out ∧
        out.pair_id = "P" ++ zeroPad6 (i + 1) ∧
        out.nuc_contig = rec.tname ∧
        out.nuc_start = min rec.tstart rec.tend ∧
        out.nuc_end = max rec.tstart rec.tend ∧
        out.mito_contig = rec.qname ∧
        out.mito_start = min rec.qstart rec.qend ∧
        out.mito_end = max rec.qstart rec.qend ∧
        out.aln_len = rec.alnlen ∧
        ((n2m.filter (reciprocalOf rec) = [] ∧ out.aln_ident = rec.identity) ∨
         (∃ b ∈ n2m.filter (reciprocalOf rec),
            out.aln_ident = max rec.identity b.identity ∧
            ∀ c ∈ n2m.filter (reciprocalOf rec), c.identity ≤ b.identity))) ∧
    (∀ (n2m' : List PafRecord) (i : Nat),
      ((pair_and_merge m2n n2m g)[i]?).map PairedLocus.pair_id =
      ((pair_and_merge m2n n2m' g)[i]?).map PairedLocus.pair_id) := by
  refine ⟨pairLoop_length n2m m2n 0, ?_, ?_⟩
  · intro i rec hrec
    refine ⟨mkLocus n2m i rec, ?_, rfl, rfl, rfl, rfl, rfl, rfl, rfl, rfl, ?_⟩
    · rw [pair_and_merge, pairLoop_get? n2m m2n 0 i, hrec]
      simp
    · by_cases hemp : n2m.filter (reciprocalOf rec) = []
      · left
        refine ⟨hemp, ?_⟩
        simp [mkLocus, maxByIdentity, hemp]
      · right
        obtain ⟨b, hb, hbmem, hbmax⟩ := maxByIdentity_spec _ hemp
        refine ⟨b, hbmem, ?_, hbmax⟩
        simp only [mkLocus, hb]
        exact max_comm b.identity rec.identity
  · intro n2m' i
    rw [pair_and_merge, pair_and_merge, pairLoop_get? n2m m2n 0 i,
      pairLoop_get? n2m' m2n 0 i]
    cases m2n[i]? <;> simp [mkLocus]

/-- Claim C6 witness: a concrete driver with one reciprocal match. -/
theorem C6_witness :
    ∃ out, (pair_and_merge
        [⟨"m1", 10, 90, "c1", 20, 5, 70, 80, 60, 7/8, '+'⟩]
        [⟨"c1", 5, 20, "m1", 90, 10, 79, 80, 60, 79/80, '+'⟩] 50)[0]? = some out ∧
      out.pair_id = "P" ++ zeroPad6 1 ∧
      out.nuc_contig = "c1" ∧
      out.nuc_start = min 20 5 ∧
      out.nuc_end = max 20 5 ∧
      out.mito_contig = "m1" ∧
      out.mito_start = min 10 90 ∧
      out.mito_end = max 10 90 ∧
      out.aln_len = 80 ∧
      (([(⟨"c1", 5, 20, "m1", 90, 10, 79, 80, 60, 79/80, '+'⟩ : PafRecord)].filter
          (reciprocalOf ⟨"m1", 10, 90, "c1", 20, 5, 70, 80, 60, 7/8, '+'⟩) = [] ∧
          out.aln_ident = 7/8) ∨
       (∃ b ∈ [(⟨"c1", 5, 20, "m1", 90, 10, 79, 80, 60, 79/80, '+'⟩ : PafRecord)].filter
          (reciprocalOf ⟨"m1", 10, 90, "c1", 20, 5, 70, 80, 60, 7/8, '+'⟩),
          out.aln_ident = max (7/8) b.identity ∧
          ∀ c ∈ [(⟨"c1", 5, 20, "m1", 90, 10, 79, 80, 60, 79/80, '+'⟩ : PafRecord)].filter
            (reciprocalOf ⟨"m1", 10, 90, "c1", 20, 5, 70, 80, 60, 7/8, '+'⟩),
            c.identity ≤ b.identity)) :=
  (C6_pairer [⟨"m1", 10, 90, "c1", 20, 5, 70, 80, 60, 7/8, '+'⟩]
    [⟨"c1", 5, 20, "m1", 90, 10, 79, 80, 60, 79/80, '+'⟩] 50).2.1 0
    ⟨"m1", 10, 90, "c1", 20, 5, 70, 80, 60, 7/8, '+'⟩ rfl

/-! ## Claim C9: interval union -/

/-- Gap relation between merged intervals: strictly separated (no overlap,
no touching). -/
def intervalGap (p q : Nat × Nat) : Prop := p.2 < q.1

lemma unionLoop_eq_sum_mergeLoop :
    ∀ (l : List (Nat × Nat)) (cur : Nat × Nat),
      unionLoop cur l = ((mergeLoop cur l).map fun p => p.2 - p.1).sum := by
  intro l
  induction l with
  | nil => intro cur; simp [unionLoop, mergeLoop]
  | cons p rest ih =>
    intro cur
    obtain ⟨s, e⟩ := p
    simp only [unionLoop, mergeLoop]
    split
    · exact ih (cur.1, max cur.2 e)
    · simp [ih (s, e)]

lemma mergeLoop_ne_nil : ∀ (l : List (Nat × Nat)) (cur : Nat × Nat),
    mergeLoop cur l ≠ [] := by
  intro l
  induction l with
  | nil => intro cur; simp [mergeLoop]
  | cons p rest ih =>
    intro cur
    obtain ⟨s, e⟩ := p
    simp only [mergeLoop]
    split
    · exact ih _
    · simp

lemma mergeLoop_props :
    ∀ (l : List (Nat × Nat)) (cur : Nat × Nat),
      (∀ p ∈ l, p.1 ≤ p.2) → cur.1 ≤ cur.2 →
      (∀ q ∈ mergeLoop cur l, q.1 ≤ q.2) ∧
      (∀ q ∈ mergeLoop cur l, cur.1 ≤ q.1) ∧
      (mergeLoop cur l).Pairwise intervalGap := by
  intro l
  induction l with
  | nil =>
    intro cur _ hcur
    refine ⟨?_, ?_, ?_⟩ <;> simp [mergeLoop, hcur]
  | cons p rest ih =>
    intro cur hall hcur
    obtain ⟨s, e⟩ := p
    have hse : s ≤ e := hall (s, e) (by simp)
    have hrest : ∀ q ∈ rest, q.1 ≤ q.2 := fun q hq => hall q (by simp [hq])
    simp only [mergeLoop]
    split
    · rename_i hle
      exact ih (cur.1, max cur.2 e) hrest (by simp; omega)
    · rename_i hgt
      have hlt : cur.2 < s := by omega
      obtain ⟨hproper, hstart, hpair⟩ := ih (s, e) hrest hse
      refine ⟨?_, ?_, ?_⟩
      · intro q hq
        rcases List.mem_cons.mp hq with h | h
        · rw [h]; exact hcur
        · exact hproper q h
      · intro q hq
        rcases List.mem_cons.mp hq with h | h
        · rw [h]
        · have := hstart q h
          simp only at this
          omega
      · refine List.Pairwise.cons ?_ hpair
        intro q hq
        have := hstart q hq
        simp only at this
        unfold intervalGap
        omega

lemma mergeLoop_sorted (l : List (Nat × Nat)) (cur : Nat × Nat)
    (hall : ∀ p ∈ l, p.1 ≤ p.2) (hcur : cur.1 ≤ cur.2) :
    (mergeLoop cur l).Sorted pairLe := by
  obtain ⟨hproper, _, hpair⟩ := mergeLoop_props l cur hall hcur
  refine List.Pairwise.imp_of_mem ?_ hpair
  intro p q hp _ hgap
  have := hproper p hp
  unfold intervalGap at hgap
  unfold pairLe
  omega

lemma unionLoop_of_gapped :
    ∀ (l : List (Nat × Nat)) (cur : Nat × Nat),
      (cur :: l).Pairwise intervalGap →
      unionLoop cur l = ((cur :: l).map fun p => p.2 - p.1).sum := by
  intro l
  induction l with
  | nil => intro cur _; simp [unionLoop]
  | cons p rest ih =>
    intro cur hpair
    obtain ⟨s, e⟩ := p
    have hgap : intervalGap cur (s, e) :=
      (List.pairwise_cons.mp hpair).1 (s, e) (by simp)
    have htail : ((s, e) :: rest).Pairwise intervalGap :=
      (List.pairwise_cons.mp hpair).2
    unfold intervalGap at hgap
    simp only at hgap
    simp only [unionLoop]
    rw [if_neg (by omega), ih (s, e) htail]
    simp [Nat.add_assoc]

lemma sortIntervals_perm_eq {l l' : List (Nat × Nat)} (h : l.Perm l') :
    sortIntervals l = sortIntervals l' := by
  have hs1 : (sortIntervals l).Sorted pairLe := List.sorted_insertionSort pairLe l
  have hs2 : (sortIntervals l').Sorted pairLe := List.sorted_insertionSort pairLe l'
  have hperm : (sortIntervals l).Perm (sortIntervals l') :=
    ((List.perm_insertionSort pairLe l).trans h).trans
      (List.perm_insertionSort pairLe l').symm
  exact List.eq_of_perm_of_sorted hperm hs1 hs2

/-- Claim C9: the interval-union length is invariant under permutation of
the input; on inputs of well-formed intervals (`start ≤ end`) it equals
the summed lengths of the merged interval list, whose members are pairwise
strictly separated (overlapping and touching intervals are merged), and
re-running the union on the merged list is idempotent; the union length of
`[(0,10), (5,20), (30,40)]` is 30. -/
theorem C9_union :
    (∀ l l' : List (Nat × Nat), l.Perm l' → union_len l = union_len l') ∧
    (∀ l : List (Nat × Nat), (∀ p ∈ l, p.1 ≤ p.2) →
      union_len l = ((mergeIntervals l).map fun p => p.2 - p.1).sum ∧
      (mergeIntervals l).Pairwise intervalGap ∧
      union_len (mergeIntervals l) = union_len l) ∧
    union_len [(0, 10), (5, 20), (30, 40)] = 30 := by
  refine ⟨?_, ?_, by decide⟩
  · intro l l' h
    simp only [union_len]
    rw [sortIntervals_perm_eq h]
  · intro l hall
    have hall' : ∀ p ∈ sortIntervals l, p.1 ≤ p.2 := by
      intro p hp
      exact hall p ((List.perm_insertionSort pairLe l).mem_iff.mp hp)
    rcases hs : sortIntervals l with _ | ⟨c, rest⟩
    · have hm : mergeIntervals l = [] := by simp only [mergeIntervals, hs]
      have hu : union_len l = 0 := by simp only [union_len, hs]
      rw [hm, hu]
      exact ⟨rfl, List.Pairwise.nil, rfl⟩
    · have hc : c.1 ≤ c.2 := by
        refine hall' c ?_
        rw [hs]; exact List.mem_cons_self _ _
      have hrest : ∀ p ∈ rest, p.1 ≤ p.2 := by
        intro p hp
        refine hall' p ?_
        rw [hs]; exact List.mem_cons_of_mem _ hp
      have hu : union_len l = unionLoop c rest := by simp only [union_len, hs]
      have hmi : mergeIntervals l = mergeLoop c rest := by
        simp only [mergeIntervals, hs]
      obtain ⟨hproper, _, hpair⟩ := mergeLoop_props rest c hrest hc
      refine ⟨by rw [hu, hmi]; exact unionLoop_eq_sum_mergeLoop rest c,
        hmi ▸ hpair, ?_⟩
      have hsorted := mergeLoop_sorted rest c hrest hc
      have hfix : sortIntervals (mergeLoop c rest) = mergeLoop c rest :=
        List.Sorted.insertionSort_eq hsorted
      rcases hm2 : mergeLoop c rest with _ | ⟨c', rest'⟩
      · exact absurd hm2 (mergeLoop_ne_nil rest c)
      · have hv : union_len (c' :: rest') = unionLoop c' rest' := by
          simp only [union_len]
          rw [← hm2, hfix, hm2]
        have goal1 : union_len (mergeIntervals l) = unionLoop c' rest' := by
          rw [hmi, hm2, hv]
        rw [goal1, hu, unionLoop_of_gapped rest' c' (hm2 ▸ hpair), ← hm2,
          ← unionLoop_eq_sum_mergeLoop rest c]

/-- Claim C9 witness: permutation invariance and merged-sum law at concrete
inputs. -/
theorem C9_witness :
    union_len [(5, 20), (30, 40), (0, 10)] = union_len [(0, 10), (5, 20), (30, 40)] ∧
    union_len [(0, 10), (5, 20), (30, 40)] =
      ((mergeIntervals [(0, 10), (5, 20), (30, 40)]).map fun p => p.2 - p.1).sum ∧
    union_len (mergeIntervals [(0, 10), (5, 20), (30, 40)]) =
      union_len [(0, 10), (5, 20), (30, 40)] :=
  ⟨C9_union.1 _ _ (by decide),
   (C9_union.2.1 _ (by decide)).1,
   (C9_union.2.1 _ (by decide)).2.2⟩

/-! ## Claim C8: global medians are medians of the per-locus locals -/

lemma covFold_locals (fN fM : String → Nat → Nat → List BamRec) (flank : Nat) :
    ∀ (pairs : List PairedLocus) (acc : CovState),
      (pairs.foldl (covStep fN fM flank) acc).nuc_locals =
        acc.nuc_locals ++ pairs.map
          (fun p => avg_depth_for_region_path fN p.nuc_contig (nucWindow p flank)) ∧
      (pairs.foldl (covStep fN fM flank) acc).mito_locals =
        acc.mito_locals ++ pairs.map
          (fun p => avg_depth_for_region_path fM p.mito_contig (mitoWindow p flank)) := by
  intro pairs
  induction pairs with
  | nil => intro acc; simp
  | cons p rest ih =>
    intro acc
    simp only [List.foldl_cons, List.map_cons]
    obtain ⟨h1, h2⟩ := ih (covStep fN fM flank acc p)
    rw [h1, h2]
    constructor <;> simp [covStep]

lemma median_nil : median [] = 0 := by simp [median]

lemma median_singleton (x : ℚ) : median [x] = x := by
  simp [median, List.insertionSort, List.orderedInsert]

lemma median_sorted_law (l : List ℚ) (hs : l.Sorted (fun a b => a ≤ b))
    (hne : l ≠ []) :
    median l = if l.length % 2 = 1 then l.getD (l.length / 2) 0
               else (l.getD (l.length / 2 - 1) 0 + l.getD (l.length / 2) 0) / 2 := by
  simp only [median, if_neg hne, List.Sorted.insertionSort_eq hs]

/-- Claim C8: the global nuclear and mitochondrial depths of the coverage
summary are the median of the per-locus local depths collected across all
loci, and the median obeys the standard empty/single/odd/even laws. -/
theorem C8_median (fN fM : String → Nat → Nat → List BamRec)
    (pairs : List PairedLocus) (flank : Nat) :
    (compute_coverage_and_spans fN fM pairs flank).1.nuclear_median =
      median (pairs.map fun p =>
        avg_depth_for_region_path fN p.nuc_contig (nucWindow p flank)) ∧
    (compute_coverage_and_spans fN fM pairs flank).1.mito_median =
      median (pairs.map fun p =>
        avg_depth_for_region_path fM p.mito_contig (mitoWindow p flank)) ∧
    median [] = 0 ∧
    (∀ x : ℚ, median [x] = x) ∧
    median [1, 2, 3] = 2 ∧
    median [1, 2] = 3 / 2 ∧
    (∀ l : List ℚ, l.Sorted (fun a b => a ≤ b) → l ≠ [] →
      median l = if l.length % 2 = 1 then l.getD (l.length / 2) 0
                 else (l.getD (l.length / 2 - 1) 0 + l.getD (l.length / 2) 0) / 2) := by
  obtain ⟨h1, h2⟩ := covFold_locals fN fM flank pairs ⟨[], [], [], []⟩
  refine ⟨?_, ?_, median_nil, median_singleton, ?_, ?_, median_sorted_law⟩
  · simp only [compute_coverage_and_spans, h1, List.nil_append]
  · simp only [compute_coverage_and_spans, h2, List.nil_append]
  · have hne : ¬([1, 2, 3] : List ℚ) = [] := by simp
    norm_num [median, List.insertionSort, List.orderedInsert, hne]
  · have hne : ¬([1, 2] : List ℚ) = [] := by simp
    norm_num [median, List.insertionSort, List.orderedInsert, hne]

/-- Claim C8 witness: the sorted even/odd law at the concrete sorted list
`[1, 2]`. -/
theorem C8_witness :
    median [(1 : ℚ), 2] =
      if ([(1 : ℚ), 2]).length % 2 = 1 then ([(1 : ℚ), 2]).getD (([(1 : ℚ), 2]).length / 2) 0
      else (([(1 : ℚ), 2]).getD (([(1 : ℚ), 2]).length / 2 - 1) 0 +
            ([(1 : ℚ), 2]).getD (([(1 : ℚ), 2]).length / 2) 0) / 2 :=
  (C8_median (fun _ _ _ => []) (fun _ _ _ => []) [] 0).2.2.2.2.2.2 [(1 : ℚ), 2]
    (by norm_num [List.sorted_cons]) (by simp)

/-! ## Claim C5: scoring formulas and decision rule -/

lemma ratio_eq (dloc dmed : ℝ) (h : 0 ≤ dmed) :
    (if dmed > 0 then dloc / dmed else 0) = spec_ratio dloc dmed := by
  unfold spec_ratio
  rcases eq_or_lt_of_le h with heq | hlt
  · rw [if_neg (by rw [← heq]; exact lt_irrefl 0), if_pos heq.symm]
  · rw [if_pos hlt, if_neg hlt.ne']

lemma scale_len_eq (n : Nat) : scale_len n = (n : ℝ) / ((n : ℝ) + 5000) := by
  unfold scale_len clamp01
  have hd : (0 : ℝ) < (n : ℝ) + 5000 := by positivity
  have h1 : (0 : ℝ) ≤ (n : ℝ) / ((n : ℝ) + 5000) := by positivity
  have h2 : (n : ℝ) / ((n : ℝ) + 5000) ≤ 1 := by
    rw [div_le_one hd]
    have : (0 : ℝ) ≤ (n : ℝ) := Nat.cast_nonneg n
    linarith
  rw [max_eq_left h1, min_eq_left h2]

/-- Claim C5: the engine's scores agree with the claimed closed formulas
(with `r = local/global` guarded to 0 at a zero global median, the depth
contrast expressed via `log2`, and the NIMT score having the contrast
terms negated), the call is NUMT when `diff ≥ call_threshold`, NIMT when
`−diff ≥ call_threshold`, else Ambiguous, and the confidence is `|diff|`.
The global medians are assumed non-negative (they are medians of
non-negative depths; the code tests `> 0` where the claim says `= 0`). -/
theorem C5_scoring (cov : CoverageSummaryR) (spans : SpanSummaryR)
    (w : Weights) (params : ClassifyParams) (p : PairedLocus)
    (hn : 0 ≤ cov.nuclear_median) (hm : 0 ≤ cov.mito_median) :
    (classify_one cov spans w params p).score_numt =
      spec_score_numt w ((p.aln_ident : ℝ)) p.aln_len
        (spec_ratio ((cov.per_pair.lookup p.pair_id).getD (0, 0)).1 cov.nuclear_median)
        (spec_ratio ((cov.per_pair.lookup p.pair_id).getD (0, 0)).2 cov.mito_median)
        ((spans.per_pair.lookup p.pair_id).getD (0, 0)).1
        ((spans.per_pair.lookup p.pair_id).getD (0, 0)).2 ∧
    (classify_one cov spans w params p).score_nimt =
      spec_score_nimt w ((p.aln_ident : ℝ)) p.aln_len
        (spec_ratio ((cov.per_pair.lookup p.pair_id).getD (0, 0)).1 cov.nuclear_median)
        (spec_ratio ((cov.per_pair.lookup p.pair_id).getD (0, 0)).2 cov.mito_median)
        ((spans.per_pair.lookup p.pair_id).getD (0, 0)).1
        ((spans.per_pair.lookup p.pair_id).getD (0, 0)).2 ∧
    (classify_one cov spans w params p).call =
      (if (classify_one cov spans w params p).score_numt -
            (classify_one cov spans w params p).score_nimt ≥ params.call_threshold
        then Call.NUMT
        else if -((classify_one cov spans w params p).score_numt -
            (classify_one cov spans w params p).score_nimt) ≥ params.call_threshold
          then Call.NIMT
          else Call.Ambiguous) ∧
    (classify_one cov spans w params p).confidence =
      |(classify_one cov spans w params p).score_numt -
        (classify_one cov spans w params p).score_nimt| := by
  have hr1 := ratio_eq ((cov.per_pair.lookup p.pair_id).getD (0, 0)).1
    cov.nuclear_median hn
  have hr2 := ratio_eq ((cov.per_pair.lookup p.pair_id).getD (0, 0)).2
    cov.mito_median hm
  refine ⟨?_, ?_, ?_, rfl⟩
  · simp only [classify_one, spec_score_numt, hr1, hr2, scale_len_eq, Real.logb]
  · simp only [classify_one, spec_score_nimt, hr1, hr2, scale_len_eq, Real.logb]
    ring
  · simp only [neg_sub]
    rfl

/-- Concrete inputs for the scoring witness. -/
noncomputable def covC5 : CoverageSummaryR := ⟨1, 1, []⟩

noncomputable def spansC5 : SpanSummaryR := ⟨[]⟩

noncomputable def wC5 : Weights := ⟨1/4, 3/20, 1/4, 1/4⟩

noncomputable def paramsC5 : ClassifyParams := ⟨3/20, 3/10⟩

def pC5 : PairedLocus := ⟨"P000001", "chr1", 100, 200, "m1", 10, 110, 100, 49/50⟩

/-- Claim C5 witness: the scoring theorem applied at concrete inputs. -/
theorem C5_witness :
    (classify_one covC5 spansC5 wC5 paramsC5 pC5).score_numt =
      spec_score_numt wC5 ((pC5.aln_ident : ℝ)) pC5.aln_len
        (spec_ratio ((covC5.per_pair.lookup pC5.pair_id).getD (0, 0)).1 covC5.nuclear_median)
        (spec_ratio ((covC5.per_pair.lookup pC5.pair_id).getD (0, 0)).2 covC5.mito_median)
        ((spansC5.per_pair.lookup pC5.pair_id).getD (0, 0)).1
        ((spansC5.per_pair.lookup pC5.pair_id).getD (0, 0)).2 ∧
    (classify_one covC5 spansC5 wC5 paramsC5 pC5).confidence =
      |(classify_one covC5 spansC5 wC5 paramsC5 pC5).score_numt -
        (classify_one covC5 spansC5 wC5 paramsC5 pC5).score_nimt| :=
  ⟨(C5_scoring covC5 spansC5 wC5 paramsC5 pC5
      (by simp [covC5]) (by simp [covC5])).1,
   (C5_scoring covC5 spansC5 wC5 paramsC5 pC5
      (by simp [covC5]) (by simp [covC5])).2.2.2⟩

/-! ## Claim C4: span fraction -/

/-- A record qualifies for the span statistic iff it is mapped, its mapping
quality is at least 20, and its reference-consumed length is positive. -/
def qualifiesSpan (r : BamRec) : Bool :=
  !r.unmapped && decide (20 ≤ r.mapq) && decide (0 < refLen r.cigar)

/-- A record spans the window iff its reference interval overlaps the
window by at least 80 % of the window's length. -/
def spansWindow (sw : Window) (r : BamRec) : Bool :=
  match r.astart with
  | none => false
  | some p =>
    decide ((4 : ℚ) / 5 ≤
      ((max (min (recStart0 p + refLen r.cigar) sw.end_ - max (recStart0 p) sw.start) 0 : Int) : ℚ) /
        ((max (sw.end_ - sw.start) 1 : Int) : ℚ))

lemma mapqPass_iff (q : Nat) : mapqPass q = decide (20 ≤ q) := by
  by_cases h : q = 255
  · subst h; simp [mapqPass]
  · by_cases h20 : 20 ≤ q
    · simp [mapqPass, h, h20]
    · simp only [mapqPass, h, decide_eq_true_eq, decide_eq_false_iff_not]
      simp [h20]
      omega

lemma spanCounts_eq (sw : Window) (records : List BamRec)
    (h : ∀ r ∈ records, r.astart.isSome) :
    spanCounts sw (((max (sw.end_ - sw.start) 1 : Int) : ℚ)) records =
      ((records.filter qualifiesSpan).length,
       (records.filter qualifiesSpan).countP (spansWindow sw)) := by
  induction records with
  | nil => rfl
  | cons r rest ih =>
    have hr : r.astart.isSome := h r (by simp)
    have hrest : ∀ x ∈ rest, x.astart.isSome :=
      fun x hx => h x (List.mem_cons_of_mem _ hx)
    obtain ⟨p, hp⟩ := Option.isSome_iff_exists.mp hr
    simp only [spanCounts, ih hrest]
    by_cases hu : r.unmapped
    · simp [hu, qualifiesSpan, List.filter_cons]
    · by_cases hq : mapqPass r.mapq
      · rw [hp]
        by_cases hrl : refLen r.cigar ≤ 0
        · have hqual : qualifiesSpan r = false := by
            simp [qualifiesSpan, hu]
            omega
          simp [hu, hq, hrl, hqual, List.filter_cons]
        · have hqual : qualifiesSpan r = true := by
            rw [mapqPass_iff] at hq
            simp only [decide_eq_true_eq] at hq
            simp only [qualifiesSpan, Bool.and_eq_true, Bool.not_eq_true',
              decide_eq_true_eq]
            refine ⟨⟨?_, hq⟩, by omega⟩
            cases hvu : r.unmapped
            · rfl
            · exact absurd hvu hu
          have hspan : spansWindow sw r =
              decide ((4 : ℚ) / 5 ≤
                ((max (min (recStart0 p + refLen r.cigar) sw.end_ -
                    max (recStart0 p) sw.start) 0 : Int) : ℚ) /
                  ((max (sw.end_ - sw.start) 1 : Int) : ℚ)) := by
            simp [spansWindow, hp]
          simp only [hu, hq, hrl, if_false, if_neg, ite_not, List.filter_cons,
            hqual, if_true, List.length_cons, List.countP_cons, hspan]
          by_cases hc : (4 : ℚ) / 5 ≤
              ((max (min (recStart0 p + refLen r.cigar) sw.end_ -
                  max (recStart0 p) sw.start) 0 : Int) : ℚ) /
                ((max (sw.end_ - sw.start) 1 : Int) : ℚ) <;>
            · push_cast at hc
              simp [hc]
      · have hqual : qualifiesSpan r = false := by
          rw [mapqPass_iff] at hq
          simp only [decide_eq_true_eq] at hq
          simp [qualifiesSpan, hu]
          omega
        simp [hu, hq, hqual, List.filter_cons]

/-- Claim C4: the span fraction is computed over exactly the fetched
records that are mapped, have mapping quality ≥ 20 (raw byte 255, meaning
unavailable, also passes) and positive reference-consumed length (which
counts only M/=/X/D/N operations); a record spans iff its reference
interval overlaps the capped span window by at least 80 % of the window
length; the fraction is spanning/total, 0 when no record qualifies.  The
hypothesis says every fetched record carries an alignment start, as region
queries return positioned records. -/
theorem C4_span_fraction (fetch : String → Nat → Nat → List BamRec)
    (rname : String) (w : Window) (cap : Int)
    (h : ∀ r ∈ fetch rname ((max (capWindow w cap).start 0 + 1).toNat)
          ((max (capWindow w cap).end_ 1).toNat), r.astart.isSome) :
    (∀ q : Nat, mapqPass q = decide (20 ≤ q)) ∧
    (∀ k : CigarKind, consumesRef k =
      decide (k = .Match ∨ k = .SequenceMatch ∨ k = .SequenceMismatch ∨
              k = .Deletion ∨ k = .Skip)) ∧
    span_fraction_for_region_path fetch rname w cap =
      (if ((fetch rname ((max (capWindow w cap).start 0 + 1).toNat)
              ((max (capWindow w cap).end_ 1).toNat)).filter qualifiesSpan).length = 0
       then 0
       else (((fetch rname ((max (capWindow w cap).start 0 + 1).toNat)
                ((max (capWindow w cap).end_ 1).toNat)).filter qualifiesSpan).countP
                  (spansWindow (capWindow w cap)) : ℚ) /
            (((fetch rname ((max (capWindow w cap).start 0 + 1).toNat)
                ((max (capWindow w cap).end_ 1).toNat)).filter qualifiesSpan).length : ℚ)) := by
  refine ⟨mapqPass_iff, fun k => by cases k <;> rfl, ?_⟩
  simp only [span_fraction_for_region_path, spanCounts_eq (capWindow w cap) _ h]

/-- Concrete record and fetch oracle for the span witness: one mapped,
high-quality read covering `[0, 10000)`. -/
def bamRecC4 : BamRec := ⟨false, some 1, 60, [⟨.Match, 10000⟩]⟩

def fetchC4 : String → Nat → Nat → List BamRec := fun _ _ _ => [bamRecC4]

/-- Claim C4 witness: the span theorem applied to a concrete fetch. -/
theorem C4_witness :
    span_fraction_for_region_path fetchC4 "chr1" ⟨0, 20000⟩ 20000 =
      (if ((fetchC4 "chr1" ((max (capWindow ⟨0, 20000⟩ 20000).start 0 + 1).toNat)
              ((max (capWindow ⟨0, 20000⟩ 20000).end_ 1).toNat)).filter qualifiesSpan).length = 0
       then 0
       else (((fetchC4 "chr1" ((max (capWindow ⟨0, 20000⟩ 20000).start 0 + 1).toNat)
                ((max (capWindow ⟨0, 20000⟩ 20000).end_ 1).toNat)).filter qualifiesSpan).countP
                  (spansWindow (capWindow ⟨0, 20000⟩ 20000)) : ℚ) /
            (((fetchC4 "chr1" ((max (capWindow ⟨0, 20000⟩ 20000).start 0 + 1).toNat)
                ((max (capWindow ⟨0, 20000⟩ 20000).end_ 1).toNat)).filter qualifiesSpan).length : ℚ)) :=
  (C4_span_fraction fetchC4 "chr1" ⟨0, 20000⟩ 20000
    (by intro r hr; simp only [fetchC4, List.mem_singleton] at hr; rw [hr]; rfl)).2.2

/-! ## Claim C1: the local depth statistic -/

lemma opLenI32_nonneg (n : Nat) : 0 ≤ opLenI32 n := by
  unfold opLenI32; split
  · exact Int.ofNat_nonneg n
  · exact le_refl 0

lemma refLen_nonneg (ops : List CigarOp) : 0 ≤ refLen ops := by
  refine List.sum_nonneg ?_
  intro x hx
  obtain ⟨op, _, rfl⟩ := List.mem_map.mp hx
  split
  · exact opLenI32_nonneg op.len
  · exact le_refl 0

lemma refLen_cons (op : CigarOp) (rest : List CigarOp) :
    refLen (op :: rest) =
      (if consumesRef op.kind then opLenI32 op.len else 0) + refLen rest := by
  simp [refLen]

lemma coversAt_lower :
    ∀ (ops : List CigarOp) (pos x : Int), coversAt x pos ops = true → pos ≤ x := by
  intro ops
  induction ops with
  | nil => intro pos x h; simp [coversAt] at h
  | cons op rest ih =>
    intro pos x h
    simp only [coversAt] at h
    split at h
    · rcases Bool.or_eq_true_iff.mp h with h1 | h2
      · simp only [Bool.and_eq_true, decide_eq_true_eq] at h1
        exact h1.1.2
      · have := ih (pos + opLenI32 op.len) x h2
        have hnn := opLenI32_nonneg op.len
        omega
    · exact ih pos x h

lemma coversAt_upper :
    ∀ (ops : List CigarOp) (pos x : Int),
      coversAt x pos ops = true → x < pos + refLen ops := by
  intro ops
  induction ops with
  | nil => intro pos x h; simp [coversAt] at h
  | cons op rest ih =>
    intro pos x h
    simp only [coversAt] at h
    have hrest := refLen_nonneg rest
    rw [refLen_cons]
    split at h
    · rename_i hcons
      rw [if_pos hcons]
      rcases Bool.or_eq_true_iff.mp h with h1 | h2
      · simp only [Bool.and_eq_true, decide_eq_true_eq] at h1
        have := h1.2
        omega
      · have := ih (pos + opLenI32 op.len) x h2
        omega
    · rename_i hcons
      rw [if_neg hcons]
      have := ih pos x h
      omega

lemma posList_succ (lo : Int) (n : Nat) :
    posList lo (n + 1) = lo :: posList (lo + 1) n := by
  simp only [posList, List.range_succ_eq_map, List.map_cons, List.map_map]
  congr 1
  · simp
  · refine List.map_congr_left ?_
    intro k _
    simp only [Function.comp_apply]
    push_cast
    ring

lemma mem_posList {x lo : Int} {n : Nat} (h : x ∈ posList lo n) :
    lo ≤ x ∧ x < lo + n := by
  simp only [posList, List.mem_map, List.mem_range] at h
  obtain ⟨k, hk, rfl⟩ := h
  omega

lemma sum_posList_indicator :
    ∀ (n : Nat) (lo a b : Int),
      ((posList lo n).map fun x => if a ≤ x ∧ x < b then (1 : Int) else 0).sum
        = max 0 (min (lo + n) b - max lo a) := by
  intro n
  induction n with
  | zero =>
    intro lo a b
    simp only [posList, List.range_zero, List.map_nil, List.sum_nil, Nat.cast_zero,
      add_zero]
    omega
  | succ n ih =>
    intro lo a b
    rw [posList_succ, List.map_cons, List.sum_cons, ih (lo + 1) a b]
    push_cast
    split
    · omega
    · omega

lemma coveredInOps_eq_sum :
    ∀ (ops : List CigarOp) (pos s0 e0 ws we : Int) (n : Nat),
      s0 ≤ pos → pos + refLen ops ≤ e0 → (n : Int) = max (we - ws) 0 →
      coveredInOps (max s0 ws) (min e0 we) pos ops
        = ((posList ws n).map fun x => if coversAt x pos ops then (1 : Int) else 0).sum := by
  intro ops
  induction ops with
  | nil =>
    intro pos s0 e0 ws we n _ _ _
    simp [coveredInOps, coversAt]
  | cons op rest ih =>
    intro pos s0 e0 ws we n hs0 hle hn
    have hoplen := opLenI32_nonneg op.len
    have hrestnn := refLen_nonneg rest
    by_cases hcons : consumesRef op.kind
    · have href : refLen (op :: rest) = opLenI32 op.len + refLen rest := by
        rw [refLen_cons, if_pos hcons]
      rw [href] at hle
      have hIH := ih (pos + opLenI32 op.len) s0 e0 ws we n (by omega) (by omega) hn
      have hpoint : ∀ x ∈ posList ws n,
          (if coversAt x pos (op :: rest) then (1 : Int) else 0)
            = (if (contributesDepth op.kind && decide (pos ≤ x) &&
                    decide (x < pos + opLenI32 op.len)) then (1 : Int) else 0)
              + (if coversAt x (pos + opLenI32 op.len) rest then (1 : Int) else 0) := by
        intro x _
        have hcover : coversAt x pos (op :: rest)
            = ((contributesDepth op.kind && decide (pos ≤ x) &&
                decide (x < pos + opLenI32 op.len))
               || coversAt x (pos + opLenI32 op.len) rest) := by
          simp [coversAt, hcons]
        rw [hcover]
        cases hA : (contributesDepth op.kind && decide (pos ≤ x) &&
            decide (x < pos + opLenI32 op.len)) with
        | false => cases hB : coversAt x (pos + opLenI32 op.len) rest <;> simp
        | true =>
          cases hB : coversAt x (pos + opLenI32 op.len) rest with
          | false => simp
          | true =>
            exfalso
            simp only [Bool.and_eq_true, decide_eq_true_eq] at hA
            have h2 := coversAt_lower rest (pos + opLenI32 op.len) x hB
            omega
      rw [List.map_congr_left hpoint, List.sum_map_add, ← hIH]
      simp only [coveredInOps]
      rw [if_pos hcons]
      congr 1
      by_cases hcontrib : contributesDepth op.kind
      · have hA : ∀ x ∈ posList ws n,
            (if (contributesDepth op.kind && decide (pos ≤ x) &&
                  decide (x < pos + opLenI32 op.len)) then (1 : Int) else 0)
              = (if pos ≤ x ∧ x < pos + opLenI32 op.len then (1 : Int) else 0) := by
          intro x _
          simp [hcontrib]
        rw [if_pos hcontrib, List.map_congr_left hA,
          sum_posList_indicator n ws pos (pos + opLenI32 op.len)]
        omega
      · have hA : ∀ x ∈ posList ws n,
            (if (contributesDepth op.kind && decide (pos ≤ x) &&
                  decide (x < pos + opLenI32 op.len)) then (1 : Int) else 0)
              = (0 : Int) := by
          intro x _
          simp [hcontrib]
        rw [if_neg hcontrib, List.map_congr_left hA]
        simp
    · have href : refLen (op :: rest) = refLen rest := by
        rw [refLen_cons, if_neg hcons]
        ring
      rw [href] at hle
      have hIH := ih pos s0 e0 ws we n hs0 hle hn
      have hpoint : ∀ x ∈ posList ws n,
          (if coversAt x pos (op :: rest) then (1 : Int) else 0)
            = (if coversAt x pos rest then (1 : Int) else 0) := by
        intro x _
        have : coversAt x pos (op :: rest) = coversAt x pos rest := by
          simp [coversAt, hcons]
        rw [this]
      rw [List.map_congr_left hpoint, ← hIH]
      simp only [coveredInOps]
      rw [if_neg hcons]

lemma recCoversAt_true (r : BamRec) (x : Int) (p : Nat)
    (hu : ¬ r.unmapped = true) (hast : r.astart = some p)
    (hrl : 0 < refLen r.cigar) :
    recCoversAt r x = coversAt x (recStart0 p) r.cigar := by
  simp [recCoversAt, hu, hast, hrl]

lemma recCovered_eq_sum (w : Window) (r : BamRec) :
    recCovered w r =
      ((windowPositions w).map fun x => if recCoversAt r x then (1 : Int) else 0).sum := by
  by_cases hu : r.unmapped
  · simp [recCovered, recCoversAt, hu]
  · cases hast : r.astart with
    | none => simp [recCovered, recCoversAt, hu, hast]
    | some p =>
      by_cases hrl : refLen r.cigar ≤ 0
      · have hdec : ¬ (0 < refLen r.cigar) := by omega
        simp [recCovered, recCoversAt, hu, hast, hrl, hdec]
      · have hrlpos : 0 < refLen r.cigar := by omega
        have hcA : ∀ y : Int, recCoversAt r y = coversAt y (recStart0 p) r.cigar :=
          fun y => recCoversAt_true r y p hu hast hrlpos
        by_cases hov : min (recStart0 p + refLen r.cigar) w.end_ ≤
            max (recStart0 p) w.start
        · have hz : ∀ x ∈ windowPositions w,
              (if recCoversAt r x then (1 : Int) else 0) = 0 := by
            intro x hx
            obtain ⟨hxlo, hxhi⟩ := mem_posList hx
            have hcast : ((w.end_ - w.start).toNat : Int) =
                max (w.end_ - w.start) 0 := Int.toNat_eq_max _
            cases hc : recCoversAt r x with
            | false => simp
            | true =>
              exfalso
              rw [hcA x] at hc
              have hl := coversAt_lower r.cigar (recStart0 p) x hc
              have hh := coversAt_upper r.cigar (recStart0 p) x hc
              omega
          rw [List.map_congr_left hz]
          simp [recCovered, hu, hast, hrl, hov]
        · have hmain := coveredInOps_eq_sum r.cigar (recStart0 p) (recStart0 p)
            (recStart0 p + refLen r.cigar) w.start w.end_
            (w.end_ - w.start).toNat (le_refl _) (le_refl _) (Int.toNat_eq_max _)
          have hlhs : recCovered w r =
              coveredInOps (max (recStart0 p) w.start)
                (min (recStart0 p + refLen r.cigar) w.end_) (recStart0 p) r.cigar := by
            simp [recCovered, hu, hast, hrl, hov]
          rw [hlhs, hmain]
          refine congrArg List.sum ?_
          refine List.map_congr_left ?_
          intro x _
          rw [hcA x]

lemma sum_map_sum_comm (rs : List BamRec) (xs : List Int) (f : BamRec → Int → Int) :
    (rs.map fun r => (xs.map (f r)).sum).sum
      = (xs.map fun x => (rs.map fun r => f r x).sum).sum := by
  induction rs with
  | nil => simp
  | cons r rest ih =>
    simp only [List.map_cons, List.sum_cons, ih]
    rw [← List.sum_map_add]

lemma depthAt_cast_sum (records : List BamRec) (x : Int) :
    ((depthAt records x : Nat) : Int)
      = (records.map fun r => if recCoversAt r x then (1 : Int) else 0).sum := by
  induction records with
  | nil => rfl
  | cons r rest ih =>
    simp only [depthAt] at ih
    simp only [depthAt, List.countP_cons, List.map_cons, List.sum_cons]
    push_cast
    rw [ih]
    by_cases hc : recCoversAt r x
    · simp [hc]
      ring
    · simp [hc]

/-- Claim C1 (amended): the local depth statistic of the estimator is the
MEAN of the per-base depth values over the half-open window — the sum of
per-base depths divided by `max (end - start) 1` — not their median; a
window with no records yields 0; and the estimator queries the window
`[start - flank, end + flank)` extending the locus interval, not a window
centred on the locus midpoint. -/
theorem C1_mean_depth (fetch : String → Nat → Nat → List BamRec)
    (rname : String) (w : Window) :
    avg_depth_for_region_path fetch rname w =
      (((windowPositions w).map fun x =>
        ((depthAt (fetch rname ((max w.start 0 + 1).toNat)
            ((max w.end_ 1).toNat)) x : Nat) : ℚ)).sum) /
        ((max (w.end_ - w.start) 1 : Int) : ℚ) ∧
    avg_depth [] w = 0 ∧
    (∀ (fN fM : String → Nat → Nat → List BamRec) (pairs : List PairedLocus)
        (flank : Nat) (i : Nat) (p : PairedLocus), pairs[i]? = some p →
      (compute_coverage_and_spans fN fM pairs flank).1.per_pair[i]? =
        some (p.pair_id,
          (avg_depth_for_region_path fN p.nuc_contig (nucWindow p flank),
           avg_depth_for_region_path fM p.mito_contig (mitoWindow p flank)))) := by
  refine ⟨?_, ?_, ?_⟩
  · set records := fetch rname ((max w.start 0 + 1).toNat) ((max w.end_ 1).toNat)
      with hrec
    have hcov : (records.map (recCovered w)).sum
        = ((windowPositions w).map fun x => ((depthAt records x : Nat) : Int)).sum := by
      have h1 : ∀ r ∈ records, recCovered w r =
          ((windowPositions w).map fun x =>
            if recCoversAt r x then (1 : Int) else 0).sum :=
        fun r _ => recCovered_eq_sum w r
      rw [List.map_congr_left h1,
        sum_map_sum_comm records (windowPositions w)
          (fun r x => if recCoversAt r x then (1 : Int) else 0)]
      refine congrArg List.sum ?_
      refine List.map_congr_left ?_
      intro x _
      exact (depthAt_cast_sum records x).symm
    simp only [avg_depth_for_region_path, avg_depth, ← hrec, hcov]
    congr 1
    rw [Int.cast_list_sum, List.map_map]
    refine congrArg List.sum ?_
    refine List.map_congr_left ?_
    intro x _
    simp
  · simp [avg_depth]
  · intro fN fM pairs flank i p hp
    have hfold : ∀ (ps : List PairedLocus) (acc : CovState),
        (ps.foldl (covStep fN fM flank) acc).per_pair =
          acc.per_pair ++ ps.map (fun q => (q.pair_id,
            (avg_depth_for_region_path fN q.nuc_contig (nucWindow q flank),
             avg_depth_for_region_path fM q.mito_contig (mitoWindow q flank)))) := by
      intro ps
      induction ps with
      | nil => intro acc; simp
      | cons q rest ih =>
        intro acc
        simp only [List.foldl_cons, List.map_cons, ih (covStep fN fM flank acc q)]
        simp [covStep]
    simp only [compute_coverage_and_spans, hfold pairs ⟨[], [], [], []⟩,
      List.nil_append, List.getElem?_map, hp, Option.map_some']

/-- A single mapped read covering the one reference base `[0, 1)`. -/
def exRecC1 : BamRec := ⟨false, some 1, 60, [⟨.Match, 1⟩]⟩

/-- Constant fetch oracle returning that one read for every region. -/
def fetchC1 : String → Nat → Nat → List BamRec := fun _ _ _ => [exRecC1]

/-- The locus `chr1:[0,4)` / `m1:[0,4)` used in the counterexample. -/
def pC1 : PairedLocus := ⟨"P000001", "chr1", 0, 4, "m1", 0, 4, 4, 1⟩

/-- Claim C1 counterexample: for the locus `[0, 4)` with flank 1 the
estimator queries `[start - F, end + F) = [-1, 5)` and returns the MEAN
depth `1/6`, while the claimed statistic — the median of per-base depths
over `[mid - F, mid + F) = [1, 3)` — is `0`; the two disagree, so the
claim as stated is false. -/
theorem C1_counterexample :
    avg_depth_for_region_path fetchC1 "chr1" (nucWindow pC1 1) = 1 / 6 ∧
    spec_median_depth (fetchC1 "chr1" 1 4) 0 4 1 = 0 ∧
    avg_depth_for_region_path fetchC1 "chr1" (nucWindow pC1 1) ≠
      spec_median_depth (fetchC1 "chr1" 1 4) 0 4 1 := by
  have hwin : nucWindow pC1 1 = ⟨-1, 5⟩ := by
    simp only [nucWindow, pC1]
    norm_num
  have havg : avg_depth_for_region_path fetchC1 "chr1" (nucWindow pC1 1) = 1 / 6 := by
    rw [hwin]
    simp only [avg_depth_for_region_path, avg_depth, fetchC1]
    norm_num
    rw [show recCovered ⟨-1, 5⟩ exRecC1 = 1 from by decide]
    norm_num
  have hmed : spec_median_depth (fetchC1 "chr1" 1 4) 0 4 1 = 0 := by
    simp only [spec_median_depth, fetchC1]
    rw [show Int.tdiv (0 + 4) 2 = 2 from by decide]
    rw [show windowPositions ⟨2 - 1, 2 + 1⟩ = [1, 2] from by decide]
    simp only [List.map_cons, List.map_nil]
    rw [show depthAt [exRecC1] 1 = 0 from by decide,
        show depthAt [exRecC1] 2 = 0 from by decide]
    norm_num [median, List.insertionSort, List.orderedInsert]
  refine ⟨havg, hmed, ?_⟩
  rw [havg, hmed]
  norm_num

/-- Claim C1 witness: the amended theorem's per-locus window conjunct
applied at a concrete pair list. -/
theorem C1_witness :
    (compute_coverage_and_spans fetchC1 fetchC1 [pC1] 1).1.per_pair[0]? =
      some (pC1.pair_id,
        (avg_depth_for_region_path fetchC1 pC1.nuc_contig (nucWindow pC1 1),
         avg_depth_for_region_path fetchC1 pC1.mito_contig (mitoWindow pC1 1))) :=
  (C1_mean_depth fetchC1 "chr1" ⟨0, 4⟩).2.2 fetchC1 fetchC1 [pC1] 1 0 pC1 rfl

end Onsm
